import Mathlib

/-!
Verification of the image transformation pipeline of the `clitools` repository
(`internal/image/processor.go`): transparent-bounds detection and cropping,
SVG rasterization scaling and point-sample downsampling, scale-target
arithmetic, resampling-algorithm dispatch, and output encoding parameters.

Modelling conventions:
* A pixel is the quadruple returned by Go's `Color.RGBA()` (alpha-premultiplied,
  16-bit range), modelled with `Nat` channels.
* A decoded pixel buffer (Go `image.Image` with bounds `Rect(0,0,w,h)`, as
  produced by the decoders and by `image.NewRGBA`) is modelled by `Img`:
  a width, a height and a total pixel function; out-of-range cells of a
  freshly allocated `RGBA` buffer read as the zero pixel, which the
  embedding reproduces with explicit bounds guards.
* Go `float32`/`float64` arithmetic is modelled over `ℚ`; the Go `int(...)`
  conversion (truncation toward zero) is `ratTrunc`.
* Go `strings.ToLower` is modelled by `lowerStr` (ASCII lowercasing, which
  agrees with Go on the ASCII algorithm names and extensions involved).
* Filesystem-mutating operations (`os.MkdirAll`, `os.Create`, encoder writes)
  are traced as `FsEff` values; reading input files and printing progress
  messages mutate no filesystem state and are not traced.
-/

namespace CliTools

/-- One pixel as seen by the processor: the four channel values returned by
`Color.RGBA()`. -/
structure Pix where
  r : Nat
  g : Nat
  b : Nat
  a : Nat
deriving DecidableEq

/-- The zero value of a freshly allocated `image.NewRGBA` cell: fully
transparent black. -/
def zeroPix : Pix := ⟨0, 0, 0, 0⟩

/-- A decoded pixel buffer with bounds `Rect(0,0,w,h)`. -/
structure Img where
  w : Nat
  h : Nat
  pix : Nat → Nat → Pix

/-- The content test of `cropTransparentAreas` (processor.go line 106):
`a > 0 || r > 0 || g > 0 || b > 0`. -/
def isContent (p : Pix) : Bool :=
  decide (0 < p.a) || decide (0 < p.r) || decide (0 < p.g) || decide (0 < p.b)

/-- `(x, y)` is an in-range pixel of `img` that passes the content test. -/
def contentIn (img : Img) (x y : Nat) : Prop :=
  x < img.w ∧ y < img.h ∧ isContent (img.pix x y) = true

instance (img : Img) (x y : Nat) : Decidable (contentIn img x y) := by
  unfold contentIn; infer_instance

/-- The bounds-scan state of `cropTransparentAreas`: running min/max content
coordinates plus the `foundContent` flag (processor.go lines 96-99). -/
structure BState where
  minX : Nat
  minY : Nat
  maxX : Nat
  maxY : Nat
  found : Bool

/-- One iteration of the scan loop body (processor.go lines 103-120). -/
def bstep (img : Img) (s : BState) (c : Nat × Nat) : BState :=
  if isContent (img.pix c.1 c.2) then
    { minX := if c.1 < s.minX then c.1 else s.minX
      maxX := if c.1 > s.maxX then c.1 else s.maxX
      minY := if c.2 < s.minY then c.2 else s.minY
      maxY := if c.2 > s.maxY then c.2 else s.maxY
      found := true }
  else s

/-- The scan order of the nested loops (processor.go lines 101-102): `y` from
`0` to `h-1` outside, `x` from `0` to `w-1` inside. -/
def coords (w h : Nat) : List (Nat × Nat) :=
  (List.range h).flatMap fun y => (List.range w).map fun x => (x, y)

/-- The full bounds scan: fold the loop body over every coordinate, starting
from `minX, minY := w, h` and `maxX, maxY := 0, 0` (processor.go lines 96-97,
with `bounds = Rect(0,0,w,h)`). -/
def scanContent (img : Img) : BState :=
  (coords img.w img.h).foldl (bstep img) ⟨img.w, img.h, 0, 0, false⟩

/-- The `1x1` transparent placeholder returned when no content is found
(processor.go line 126). -/
def emptyImg : Img := ⟨1, 1, fun _ _ => zeroPix⟩

/-- `cropTransparentAreas` (processor.go lines 92-141): scan for the content
bounding rectangle; if nothing was found return the 1x1 transparent image,
otherwise allocate a `(maxX-minX+1) x (maxY-minY+1)` buffer and copy every
pixel of the rectangle, translated to the origin.  The bounds guard on the
pixel function reproduces the reads of a fresh `RGBA` buffer whose in-range
cells were written by the copy loop (lines 134-138). -/
def cropTransparentAreas (img : Img) : Img :=
  if (scanContent img).found then
    { w := (scanContent img).maxX - (scanContent img).minX + 1
      h := (scanContent img).maxY - (scanContent img).minY + 1
      pix := fun x y =>
        if x < (scanContent img).maxX - (scanContent img).minX + 1 ∧
            y < (scanContent img).maxY - (scanContent img).minY + 1 then
          img.pix ((scanContent img).minX + x) ((scanContent img).minY + y)
        else zeroPix }
  else emptyImg

lemma mem_coords {w h : Nat} {c : Nat × Nat} : c ∈ coords w h ↔ c.1 < w ∧ c.2 < h := by
  obtain ⟨x, y⟩ := c
  simp only [coords, List.mem_flatMap, List.mem_map, List.mem_range, Prod.mk.injEq]
  constructor
  · rintro ⟨y', hy', x', hx', hxx, hyy⟩
    exact ⟨hxx ▸ hx', hyy ▸ hy'⟩
  · rintro ⟨hx, hy⟩
    exact ⟨y, hy, x, hx, rfl, rfl⟩

section fold

variable {α : Type} (Q : α → Bool) (g : α → Nat)

/-- Running minimum of `g` over the elements of a list passing `Q`. -/
def mfold (L : List α) (i : Nat) : Nat :=
  L.foldl (fun m c => if Q c then min (g c) m else m) i

/-- Running maximum of `g` over the elements of a list passing `Q`. -/
def xfold (L : List α) (i : Nat) : Nat :=
  L.foldl (fun m c => if Q c then max (g c) m else m) i

lemma mfold_cons (c : α) (L : List α) (i : Nat) :
    mfold Q g (c :: L) i = mfold Q g L (if Q c then min (g c) i else i) := rfl

lemma xfold_cons (c : α) (L : List α) (i : Nat) :
    xfold Q g (c :: L) i = xfold Q g L (if Q c then max (g c) i else i) := rfl

lemma mfold_le_init (L : List α) (i : Nat) : mfold Q g L i ≤ i := by
  induction L generalizing i with
  | nil => exact Nat.le_refl i
  | cons c L ih =>
    rw [mfold_cons]
    refine le_trans (ih _) ?_
    split
    · exact min_le_right _ _
    · exact Nat.le_refl i

lemma init_le_xfold (L : List α) (i : Nat) : i ≤ xfold Q g L i := by
  induction L generalizing i with
  | nil => exact Nat.le_refl i
  | cons c L ih =>
    rw [xfold_cons]
    refine le_trans ?_ (ih _)
    split
    · exact le_max_right _ _
    · exact Nat.le_refl i

lemma mfold_le_mem {c : α} {L : List α} (hc : c ∈ L) (hQ : Q c = true) (i : Nat) :
    mfold Q g L i ≤ g c := by
  induction L generalizing i with
  | nil => cases hc
  | cons d L ih =>
    rw [mfold_cons]
    rcases List.mem_cons.mp hc with h | h
    · subst h
      rw [if_pos hQ]
      exact le_trans (mfold_le_init Q g L _) (min_le_left _ _)
    · exact ih h _

lemma mem_le_xfold {c : α} {L : List α} (hc : c ∈ L) (hQ : Q c = true) (i : Nat) :
    g c ≤ xfold Q g L i := by
  induction L generalizing i with
  | nil => cases hc
  | cons d L ih =>
    rw [xfold_cons]
    rcases List.mem_cons.mp hc with h | h
    · subst h
      rw [if_pos hQ]
      exact le_trans (le_max_left _ _) (init_le_xfold Q g L _)
    · exact ih h _

lemma mfold_cases (L : List α) (i : Nat) :
    mfold Q g L i = i ∨ ∃ c ∈ L, Q c = true ∧ mfold Q g L i = g c := by
  induction L generalizing i with
  | nil => exact Or.inl rfl
  | cons d L ih =>
    rw [mfold_cons]
    by_cases hQ : Q d = true
    · rw [if_pos hQ]
      rcases ih (min (g d) i) with h | ⟨c, hc, hQc, he⟩
      · rcases le_total (g d) i with hle | hle
        · exact Or.inr ⟨d, List.mem_cons_self d L, hQ, by rw [h, min_eq_left hle]⟩
        · exact Or.inl (by rw [h, min_eq_right hle])
      · exact Or.inr ⟨c, List.mem_cons_of_mem d hc, hQc, he⟩
    · rw [if_neg hQ]
      rcases ih i with h | ⟨c, hc, hQc, he⟩
      · exact Or.inl h
      · exact Or.inr ⟨c, List.mem_cons_of_mem d hc, hQc, he⟩

lemma xfold_cases (L : List α) (i : Nat) :
    xfold Q g L i = i ∨ ∃ c ∈ L, Q c = true ∧ xfold Q g L i = g c := by
  induction L generalizing i with
  | nil => exact Or.inl rfl
  | cons d L ih =>
    rw [xfold_cons]
    by_cases hQ : Q d = true
    · rw [if_pos hQ]
      rcases ih (max (g d) i) with h | ⟨c, hc, hQc, he⟩
      · rcases le_total (g d) i with hle | hle
        · exact Or.inl (by rw [h, max_eq_right hle])
        · exact Or.inr ⟨d, List.mem_cons_self d L, hQ, by rw [h, max_eq_left hle]⟩
      · exact Or.inr ⟨c, List.mem_cons_of_mem d hc, hQc, he⟩
    · rw [if_neg hQ]
      rcases ih i with h | ⟨c, hc, hQc, he⟩
      · exact Or.inl h
      · exact Or.inr ⟨c, List.mem_cons_of_mem d hc, hQc, he⟩

lemma foldl_or_any (L : List α) (s : Bool) :
    L.foldl (fun f c => f || Q c) s = (s || L.any Q) := by
  induction L generalizing s with
  | nil => simp
  | cons c L ih => simp [List.foldl_cons, ih, Bool.or_assoc]

end fold

/-- The content test as a predicate on scan coordinates. -/
def contentAt (img : Img) : Nat × Nat → Bool := fun c => isContent (img.pix c.1 c.2)

lemma bstep_minX (img : Img) (s : BState) (c : Nat × Nat) :
    (bstep img s c).minX = if contentAt img c then min c.1 s.minX else s.minX := by
  unfold bstep contentAt
  by_cases h : isContent (img.pix c.1 c.2) = true
  · rw [if_pos h, if_pos h]
    show (if c.1 < s.minX then c.1 else s.minX) = min c.1 s.minX
    split <;> omega
  · rw [if_neg h, if_neg h]

lemma bstep_minY (img : Img) (s : BState) (c : Nat × Nat) :
    (bstep img s c).minY = if contentAt img c then min c.2 s.minY else s.minY := by
  unfold bstep contentAt
  by_cases h : isContent (img.pix c.1 c.2) = true
  · rw [if_pos h, if_pos h]
    show (if c.2 < s.minY then c.2 else s.minY) = min c.2 s.minY
    split <;> omega
  · rw [if_neg h, if_neg h]

lemma bstep_maxX (img : Img) (s : BState) (c : Nat × Nat) :
    (bstep img s c).maxX = if contentAt img c then max c.1 s.maxX else s.maxX := by
  unfold bstep contentAt
  by_cases h : isContent (img.pix c.1 c.2) = true
  · rw [if_pos h, if_pos h]
    show (if c.1 > s.maxX then c.1 else s.maxX) = max c.1 s.maxX
    split <;> omega
  · rw [if_neg h, if_neg h]

lemma bstep_maxY (img : Img) (s : BState) (c : Nat × Nat) :
    (bstep img s c).maxY = if contentAt img c then max c.2 s.maxY else s.maxY := by
  unfold bstep contentAt
  by_cases h : isContent (img.pix c.1 c.2) = true
  · rw [if_pos h, if_pos h]
    show (if c.2 > s.maxY then c.2 else s.maxY) = max c.2 s.maxY
    split <;> omega
  · rw [if_neg h, if_neg h]

lemma bstep_found (img : Img) (s : BState) (c : Nat × Nat) :
    (bstep img s c).found = (s.found || contentAt img c) := by
  unfold bstep contentAt
  split <;> simp [*]

lemma scan_foldl_minX (img : Img) (L : List (Nat × Nat)) (s : BState) :
    (L.foldl (bstep img) s).minX = mfold (contentAt img) Prod.fst L s.minX := by
  induction L generalizing s with
  | nil => rfl
  | cons c L ih => rw [List.foldl_cons, ih, mfold_cons, bstep_minX]

lemma scan_foldl_minY (img : Img) (L : List (Nat × Nat)) (s : BState) :
    (L.foldl (bstep img) s).minY = mfold (contentAt img) Prod.snd L s.minY := by
  induction L generalizing s with
  | nil => rfl
  | cons c L ih => rw [List.foldl_cons, ih, mfold_cons, bstep_minY]

lemma scan_foldl_maxX (img : Img) (L : List (Nat × Nat)) (s : BState) :
    (L.foldl (bstep img) s).maxX = xfold (contentAt img) Prod.fst L s.maxX := by
  induction L generalizing s with
  | nil => rfl
  | cons c L ih => rw [List.foldl_cons, ih, xfold_cons, bstep_maxX]

lemma scan_foldl_maxY (img : Img) (L : List (Nat × Nat)) (s : BState) :
    (L.foldl (bstep img) s).maxY = xfold (contentAt img) Prod.snd L s.maxY := by
  induction L generalizing s with
  | nil => rfl
  | cons c L ih => rw [List.foldl_cons, ih, xfold_cons, bstep_maxY]

lemma scan_foldl_found (img : Img) (L : List (Nat × Nat)) (s : BState) :
    (L.foldl (bstep img) s).found = (s.found || L.any (contentAt img)) := by
  induction L generalizing s with
  | nil => simp
  | cons c L ih => simp [List.foldl_cons, ih, bstep_found, Bool.or_assoc]

lemma contentIn_iff_mem {img : Img} {x y : Nat} :
    contentIn img x y ↔ (x, y) ∈ coords img.w img.h ∧ contentAt img (x, y) = true := by
  unfold contentIn contentAt
  rw [mem_coords]
  tauto

theorem scan_found_iff (img : Img) :
    (scanContent img).found = true ↔ ∃ x y, contentIn img x y := by
  unfold scanContent
  rw [scan_foldl_found]
  simp only [Bool.false_or, List.any_eq_true]
  constructor
  · rintro ⟨c, hc, hQ⟩
    exact ⟨c.1, c.2, contentIn_iff_mem.mpr ⟨hc, hQ⟩⟩
  · rintro ⟨x, y, h⟩
    obtain ⟨hc, hQ⟩ := contentIn_iff_mem.mp h
    exact ⟨(x, y), hc, hQ⟩

theorem scan_minX_le (img : Img) {x y : Nat} (h : contentIn img x y) :
    (scanContent img).minX ≤ x := by
  unfold scanContent
  rw [scan_foldl_minX]
  obtain ⟨hc, hQ⟩ := contentIn_iff_mem.mp h
  exact mfold_le_mem (contentAt img) Prod.fst hc hQ _

theorem scan_minY_le (img : Img) {x y : Nat} (h : contentIn img x y) :
    (scanContent img).minY ≤ y := by
  unfold scanContent
  rw [scan_foldl_minY]
  obtain ⟨hc, hQ⟩ := contentIn_iff_mem.mp h
  exact mfold_le_mem (contentAt img) Prod.snd hc hQ _

theorem scan_le_maxX (img : Img) {x y : Nat} (h : contentIn img x y) :
    x ≤ (scanContent img).maxX := by
  unfold scanContent
  rw [scan_foldl_maxX]
  obtain ⟨hc, hQ⟩ := contentIn_iff_mem.mp h
  exact mem_le_xfold (contentAt img) Prod.fst hc hQ _

theorem scan_le_maxY (img : Img) {x y : Nat} (h : contentIn img x y) :
    y ≤ (scanContent img).maxY := by
  unfold scanContent
  rw [scan_foldl_maxY]
  obtain ⟨hc, hQ⟩ := contentIn_iff_mem.mp h
  exact mem_le_xfold (contentAt img) Prod.snd hc hQ _

lemma scan_minX_eq (img : Img) :
    (scanContent img).minX = mfold (contentAt img) Prod.fst (coords img.w img.h) img.w :=
  scan_foldl_minX img _ _

lemma scan_minY_eq (img : Img) :
    (scanContent img).minY = mfold (contentAt img) Prod.snd (coords img.w img.h) img.h :=
  scan_foldl_minY img _ _

lemma scan_maxX_eq (img : Img) :
    (scanContent img).maxX = xfold (contentAt img) Prod.fst (coords img.w img.h) 0 :=
  scan_foldl_maxX img _ _

lemma scan_maxY_eq (img : Img) :
    (scanContent img).maxY = xfold (contentAt img) Prod.snd (coords img.w img.h) 0 :=
  scan_foldl_maxY img _ _

theorem scan_minX_mem (img : Img) (h : ∃ x y, contentIn img x y) :
    ∃ y, contentIn img (scanContent img).minX y := by
  obtain ⟨x0, y0, h0⟩ := h
  have hle := scan_minX_le img h0
  have hx0 : x0 < img.w := h0.1
  rw [scan_minX_eq] at hle ⊢
  rcases mfold_cases (contentAt img) Prod.fst (coords img.w img.h) img.w with he | ⟨c, hc, hQ, he⟩
  · omega
  · rw [he]
    exact ⟨c.2, contentIn_iff_mem.mpr ⟨by simpa using hc, hQ⟩⟩

theorem scan_minY_mem (img : Img) (h : ∃ x y, contentIn img x y) :
    ∃ x, contentIn img x (scanContent img).minY := by
  obtain ⟨x0, y0, h0⟩ := h
  have hle := scan_minY_le img h0
  have hy0 : y0 < img.h := h0.2.1
  rw [scan_minY_eq] at hle ⊢
  rcases mfold_cases (contentAt img) Prod.snd (coords img.w img.h) img.h with he | ⟨c, hc, hQ, he⟩
  · omega
  · rw [he]
    exact ⟨c.1, contentIn_iff_mem.mpr ⟨by simpa using hc, hQ⟩⟩

theorem scan_maxX_mem (img : Img) (h : ∃ x y, contentIn img x y) :
    ∃ y, contentIn img (scanContent img).maxX y := by
  obtain ⟨x0, y0, h0⟩ := h
  have hge := scan_le_maxX img h0
  rw [scan_maxX_eq] at hge ⊢
  rcases xfold_cases (contentAt img) Prod.fst (coords img.w img.h) 0 with he | ⟨c, hc, hQ, he⟩
  · rw [he]
    have hx0 : x0 = 0 := by omega
    exact ⟨y0, by rw [← hx0]; exact h0⟩
  · rw [he]
    exact ⟨c.2, contentIn_iff_mem.mpr ⟨by simpa using hc, hQ⟩⟩

theorem scan_maxY_mem (img : Img) (h : ∃ x y, contentIn img x y) :
    ∃ x, contentIn img x (scanContent img).maxY := by
  obtain ⟨x0, y0, h0⟩ := h
  have hge := scan_le_maxY img h0
  rw [scan_maxY_eq] at hge ⊢
  rcases xfold_cases (contentAt img) Prod.snd (coords img.w img.h) 0 with he | ⟨c, hc, hQ, he⟩
  · rw [he]
    have hy0 : y0 = 0 := by omega
    exact ⟨x0, by rw [← hy0]; exact h0⟩
  · rw [he]
    exact ⟨c.1, contentIn_iff_mem.mpr ⟨by simpa using hc, hQ⟩⟩

lemma crop_found_w (img : Img) (hf : (scanContent img).found = true) :
    (cropTransparentAreas img).w = (scanContent img).maxX - (scanContent img).minX + 1 := by
  rw [cropTransparentAreas, if_pos hf]

lemma crop_found_h (img : Img) (hf : (scanContent img).found = true) :
    (cropTransparentAreas img).h = (scanContent img).maxY - (scanContent img).minY + 1 := by
  rw [cropTransparentAreas, if_pos hf]

lemma crop_found_pix (img : Img) (hf : (scanContent img).found = true) (x y : Nat) :
    (cropTransparentAreas img).pix x y =
      if x < (scanContent img).maxX - (scanContent img).minX + 1 ∧
          y < (scanContent img).maxY - (scanContent img).minY + 1 then
        img.pix ((scanContent img).minX + x) ((scanContent img).minY + y)
      else zeroPix := by
  rw [cropTransparentAreas, if_pos hf]

/-- The bounding rectangle of the content pixels of `img`: all four edges are
attained by a content pixel and every content pixel lies inside. -/
def IsContentBBox (img : Img) (mX mY MX MY : Nat) : Prop :=
  (∃ y, contentIn img mX y) ∧ (∃ y, contentIn img MX y) ∧
  (∃ x, contentIn img x mY) ∧ (∃ x, contentIn img x MY) ∧
  ∀ x y, contentIn img x y → mX ≤ x ∧ x ≤ MX ∧ mY ≤ y ∧ y ≤ MY

/-- C1: for every decoded image with at least one content pixel, the crop
returns a buffer of dimensions exactly `(maxX-minX+1, maxY-minY+1)` of the
content bounding rectangle, its pixel `(0,0)` is input pixel `(minX,minY)`,
and every input pixel inside that rectangle, content or not, is copied
verbatim. -/
theorem crop_bounding_rect (img : Img) (x0 y0 : Nat) (hc : contentIn img x0 y0) :
    ∃ mX mY MX MY, IsContentBBox img mX mY MX MY ∧
      (cropTransparentAreas img).w = MX - mX + 1 ∧
      (cropTransparentAreas img).h = MY - mY + 1 ∧
      (cropTransparentAreas img).pix 0 0 = img.pix mX mY ∧
      ∀ x y, mX ≤ x → x ≤ MX → mY ≤ y → y ≤ MY →
        (cropTransparentAreas img).pix (x - mX) (y - mY) = img.pix x y := by
  have hex : ∃ x y, contentIn img x y := ⟨x0, y0, hc⟩
  have hf : (scanContent img).found = true := (scan_found_iff img).mpr hex
  refine ⟨(scanContent img).minX, (scanContent img).minY,
    (scanContent img).maxX, (scanContent img).maxY,
    ⟨scan_minX_mem img hex, scan_maxX_mem img hex, scan_minY_mem img hex, scan_maxY_mem img hex,
      fun x y h => ⟨scan_minX_le img h, scan_le_maxX img h, scan_minY_le img h, scan_le_maxY img h⟩⟩,
    crop_found_w img hf, crop_found_h img hf, ?_, ?_⟩
  · rw [crop_found_pix img hf, if_pos ⟨by omega, by omega⟩, Nat.add_zero, Nat.add_zero]
  · intro x y h1 h2 h3 h4
    rw [crop_found_pix img hf, if_pos ⟨by omega, by omega⟩]
    have e1 : (scanContent img).minX + (x - (scanContent img).minX) = x := by omega
    have e2 : (scanContent img).minY + (y - (scanContent img).minY) = y := by omega
    rw [e1, e2]

/-- A 3x3 transparent canvas with a single fully-opaque black pixel at (1,1). -/
def blackDotImg : Img := ⟨3, 3, fun x y => if x = 1 ∧ y = 1 then ⟨0, 0, 0, 65535⟩ else zeroPix⟩

/-- C1 witness: on a concrete 4x4 image with content pixels at (1,1) and (2,2),
the theorem applies. -/
def dotsImg : Img :=
  ⟨4, 4, fun x y => if (x = 1 ∧ y = 1) ∨ (x = 2 ∧ y = 2) then ⟨0, 0, 0, 65535⟩ else zeroPix⟩

theorem crop_bounding_rect_witness :
    ∃ mX mY MX MY, IsContentBBox dotsImg mX mY MX MY ∧
      (cropTransparentAreas dotsImg).w = MX - mX + 1 ∧
      (cropTransparentAreas dotsImg).h = MY - mY + 1 ∧
      (cropTransparentAreas dotsImg).pix 0 0 = dotsImg.pix mX mY ∧
      ∀ x y, mX ≤ x → x ≤ MX → mY ≤ y → y ≤ MY →
        (cropTransparentAreas dotsImg).pix (x - mX) (y - mY) = dotsImg.pix x y :=
  crop_bounding_rect dotsImg 1 1 (by decide)

/-- C2: a pixel counts as content iff its alpha channel is positive or any of
its color channels is positive; a fully-opaque black pixel counts, as does a
transparent pixel with a nonzero color channel, and consequently the crop of a
canvas whose only non-zero pixel is opaque black keeps exactly that pixel. -/
theorem content_predicate_permissive :
    (∀ p : Pix, isContent p = true ↔ (0 < p.a ∨ 0 < p.r ∨ 0 < p.g ∨ 0 < p.b)) ∧
    isContent ⟨0, 0, 0, 65535⟩ = true ∧
    isContent ⟨1, 0, 0, 0⟩ = true ∧
    (cropTransparentAreas blackDotImg).w = 1 ∧
    (cropTransparentAreas blackDotImg).h = 1 ∧
    (cropTransparentAreas blackDotImg).pix 0 0 = ⟨0, 0, 0, 65535⟩ := by
  refine ⟨fun p => ?_, by decide, by decide, by decide, by decide, by decide⟩
  simp [isContent, Bool.or_eq_true, or_assoc]

/-- An entirely transparent, all-zero-channel 3x2 image. -/
def allZeroImg : Img := ⟨3, 2, fun _ _ => zeroPix⟩

/-- C5: if no pixel qualifies as content, the crop returns the 1x1
fully-transparent image; the operation is total and never fails. -/
theorem crop_all_transparent (img : Img)
    (h : ∀ x y, x < img.w → y < img.h → isContent (img.pix x y) = false) :
    cropTransparentAreas img = emptyImg ∧
      emptyImg.w = 1 ∧ emptyImg.h = 1 ∧ ∀ x y, emptyImg.pix x y = zeroPix := by
  have hnf : ¬((scanContent img).found = true) := by
    intro hf
    obtain ⟨x, y, hc⟩ := (scan_found_iff img).mp hf
    have hff := h x y hc.1 hc.2.1
    rw [hc.2.2] at hff
    cases hff
  refine ⟨?_, rfl, rfl, fun _ _ => rfl⟩
  rw [cropTransparentAreas, if_neg hnf]

theorem crop_all_transparent_witness :
    cropTransparentAreas allZeroImg = emptyImg ∧
      emptyImg.w = 1 ∧ emptyImg.h = 1 ∧ ∀ x y, emptyImg.pix x y = zeroPix :=
  crop_all_transparent allZeroImg (fun _ _ _ _ => rfl)

/-- Two buffers have identical bounds and identical pixel content. -/
def ImgEq (A B : Img) : Prop :=
  A.w = B.w ∧ A.h = B.h ∧ ∀ x y, x < A.w → y < A.h → A.pix x y = B.pix x y

/-- An already-cropped image: no fully-transparent/zero-color border, i.e.
content pixels reach all four edges of the buffer. -/
def TouchesAllEdges (img : Img) : Prop :=
  0 < img.w ∧ 0 < img.h ∧
  (∃ y, y < img.h ∧ isContent (img.pix 0 y) = true) ∧
  (∃ y, y < img.h ∧ isContent (img.pix (img.w - 1) y) = true) ∧
  (∃ x, x < img.w ∧ isContent (img.pix x 0) = true) ∧
  (∃ x, x < img.w ∧ isContent (img.pix x (img.h - 1)) = true)

instance (img : Img) : Decidable (TouchesAllEdges img) := by
  unfold TouchesAllEdges
  infer_instance

lemma scan_edges (A : Img) (hA : TouchesAllEdges A) :
    (scanContent A).found = true ∧ (scanContent A).minX = 0 ∧
    (scanContent A).maxX = A.w - 1 ∧ (scanContent A).minY = 0 ∧
    (scanContent A).maxY = A.h - 1 := by
  obtain ⟨hw, hh, ⟨yL, hyL, hcL⟩, ⟨yR, hyR, hcR⟩, ⟨xT, hxT, hcT⟩, ⟨xB, hxB, hcB⟩⟩ := hA
  have cL : contentIn A 0 yL := ⟨hw, hyL, hcL⟩
  have cR : contentIn A (A.w - 1) yR := ⟨by omega, hyR, hcR⟩
  have cT : contentIn A xT 0 := ⟨hxT, hh, hcT⟩
  have cB : contentIn A xB (A.h - 1) := ⟨hxB, by omega, hcB⟩
  have hex : ∃ x y, contentIn A x y := ⟨0, yL, cL⟩
  refine ⟨(scan_found_iff A).mpr hex, ?_, ?_, ?_, ?_⟩
  · have := scan_minX_le A cL
    omega
  · have h1 := scan_le_maxX A cR
    obtain ⟨yy, hyy⟩ := scan_maxX_mem A hex
    have h2 : (scanContent A).maxX < A.w := hyy.1
    omega
  · have := scan_minY_le A cT
    omega
  · have h1 := scan_le_maxY A cB
    obtain ⟨xx, hxx⟩ := scan_maxY_mem A hex
    have h2 : (scanContent A).maxY < A.h := hxx.2.1
    omega

lemma crop_of_edges (A : Img) (hA : TouchesAllEdges A) :
    ImgEq (cropTransparentAreas A) A := by
  obtain ⟨hf, h1, h2, h3, h4⟩ := scan_edges A hA
  obtain ⟨hw, hh, _⟩ := hA
  refine ⟨?_, ?_, ?_⟩
  · rw [crop_found_w A hf, h1, h2]
    omega
  · rw [crop_found_h A hf, h3, h4]
    omega
  · intro x y hx hy
    rw [crop_found_w A hf, h1, h2] at hx
    rw [crop_found_h A hf, h3, h4] at hy
    rw [crop_found_pix A hf, h1, h2, h3, h4, if_pos ⟨by omega, by omega⟩,
      Nat.zero_add, Nat.zero_add]

lemma crop_out_of_range (img : Img) (x y : Nat)
    (h : ¬(x < (cropTransparentAreas img).w ∧ y < (cropTransparentAreas img).h)) :
    (cropTransparentAreas img).pix x y = zeroPix := by
  by_cases hf : (scanContent img).found = true
  · rw [crop_found_w img hf, crop_found_h img hf] at h
    rw [crop_found_pix img hf, if_neg h]
  · rw [cropTransparentAreas, if_neg hf]
    rfl

lemma crop_eq_self (A : Img) (hedge : TouchesAllEdges A)
    (hout : ∀ x y, ¬(x < A.w ∧ y < A.h) → A.pix x y = zeroPix) :
    cropTransparentAreas A = A := by
  obtain ⟨hf, h1, h2, h3, h4⟩ := scan_edges A hedge
  obtain ⟨hw, hh, _⟩ := hedge
  rw [cropTransparentAreas, if_pos hf, h1, h2, h3, h4]
  obtain ⟨w, h, pix⟩ := A
  simp only at hout hw hh ⊢
  simp only [Img.mk.injEq]
  refine ⟨by omega, by omega, ?_⟩
  funext x y
  by_cases hxy : x < w ∧ y < h
  · rw [if_pos ⟨by omega, by omega⟩, Nat.zero_add, Nat.zero_add]
  · rw [if_neg (by omega), (hout x y hxy).symm]

lemma crop_touches_edges (img : Img) (hex : ∃ x y, contentIn img x y) :
    TouchesAllEdges (cropTransparentAreas img) := by
  have hf := (scan_found_iff img).mpr hex
  obtain ⟨yA, hyA⟩ := scan_minX_mem img hex
  obtain ⟨yB, hyB⟩ := scan_maxX_mem img hex
  obtain ⟨xC, hxC⟩ := scan_minY_mem img hex
  obtain ⟨xD, hxD⟩ := scan_maxY_mem img hex
  have hyA1 := scan_minY_le img hyA
  have hyA2 := scan_le_maxY img hyA
  have hyB1 := scan_minY_le img hyB
  have hyB2 := scan_le_maxY img hyB
  have hxC1 := scan_minX_le img hxC
  have hxC2 := scan_le_maxX img hxC
  have hxD1 := scan_minX_le img hxD
  have hxD2 := scan_le_maxX img hxD
  have hmx : (scanContent img).minX ≤ (scanContent img).maxX := scan_le_maxX img hyA
  have hmy : (scanContent img).minY ≤ (scanContent img).maxY := scan_le_maxY img hxC
  refine ⟨?_, ?_, ?_, ?_, ?_, ?_⟩
  · rw [crop_found_w img hf]
    omega
  · rw [crop_found_h img hf]
    omega
  · refine ⟨yA - (scanContent img).minY, ?_, ?_⟩
    · rw [crop_found_h img hf]
      omega
    · rw [crop_found_pix img hf, if_pos ⟨by omega, by omega⟩]
      have e1 : (scanContent img).minX + 0 = (scanContent img).minX := Nat.add_zero _
      have e2 : (scanContent img).minY + (yA - (scanContent img).minY) = yA := by omega
      rw [e1, e2]
      exact hyA.2.2
  · rw [crop_found_w img hf]
    refine ⟨yB - (scanContent img).minY, ?_, ?_⟩
    · rw [crop_found_h img hf]
      omega
    · rw [crop_found_pix img hf, if_pos ⟨by omega, by omega⟩]
      have e1 : (scanContent img).minX + ((scanContent img).maxX - (scanContent img).minX + 1 - 1)
          = (scanContent img).maxX := by omega
      have e2 : (scanContent img).minY + (yB - (scanContent img).minY) = yB := by omega
      rw [e1, e2]
      exact hyB.2.2
  · refine ⟨xC - (scanContent img).minX, ?_, ?_⟩
    · rw [crop_found_w img hf]
      omega
    · rw [crop_found_pix img hf, if_pos ⟨by omega, by omega⟩]
      have e1 : (scanContent img).minX + (xC - (scanContent img).minX) = xC := by omega
      have e2 : (scanContent img).minY + 0 = (scanContent img).minY := Nat.add_zero _
      rw [e1, e2]
      exact hxC.2.2
  · rw [crop_found_h img hf]
    refine ⟨xD - (scanContent img).minX, ?_, ?_⟩
    · rw [crop_found_w img hf]
      omega
    · rw [crop_found_pix img hf, if_pos ⟨by omega, by omega⟩]
      have e1 : (scanContent img).minX + (xD - (scanContent img).minX) = xD := by omega
      have e2 : (scanContent img).minY + ((scanContent img).maxY - (scanContent img).minY + 1 - 1)
          = (scanContent img).maxY := by omega
      rw [e1, e2]
      exact hxD.2.2

/-- C7: crop is idempotent.  An already-cropped image (content touching all
four edges) crops to an image with identical bounds and pixel content, and
`crop (crop img) = crop img` holds for every decoded image. -/
theorem crop_idempotent :
    (∀ img : Img, TouchesAllEdges img → ImgEq (cropTransparentAreas img) img) ∧
    (∀ img : Img, cropTransparentAreas (cropTransparentAreas img) = cropTransparentAreas img) := by
  refine ⟨fun img h => crop_of_edges img h, fun img => ?_⟩
  by_cases hf : (scanContent img).found = true
  · exact crop_eq_self _ (crop_touches_edges img ((scan_found_iff img).mp hf))
      (fun x y h => crop_out_of_range img x y h)
  · have he : cropTransparentAreas img = emptyImg := by
      rw [cropTransparentAreas, if_neg hf]
    rw [he, cropTransparentAreas, if_neg (by decide)]

/-- A fully-opaque 2x2 image: already cropped. -/
def fullImg : Img := ⟨2, 2, fun _ _ => ⟨10, 20, 30, 65535⟩⟩

theorem crop_idempotent_witness :
    ImgEq (cropTransparentAreas fullImg) fullImg ∧
      cropTransparentAreas (cropTransparentAreas fullImg) = cropTransparentAreas fullImg :=
  ⟨crop_idempotent.1 fullImg (by decide), crop_idempotent.2 fullImg⟩

/-- Go's `int(...)` conversion from a floating value: truncation toward zero.
The real-valued float32/float64 arithmetic of the source is modelled over `ℚ`. -/
def ratTrunc (q : ℚ) : Int := if 0 ≤ q then ⌊q⌋ else -⌊-q⌋

lemma ratTrunc_eq_floor {q : ℚ} (h : 0 ≤ q) : ratTrunc q = ⌊q⌋ := if_pos h

/-- ASCII lowercasing of one character; agrees with Go's `strings.ToLower` on
the ASCII algorithm names and file extensions the processor dispatches on. -/
def lowerChar (c : Char) : Char :=
  if 65 ≤ c.toNat ∧ c.toNat ≤ 90 then Char.ofNat (c.toNat + 32) else c

/-- Model of `strings.ToLower`. -/
def lowerStr (s : String) : String := ⟨s.data.map lowerChar⟩

/-- The resampling filters of the `imaging` library selected by `ScaleImage`
(processor.go lines 410-421). -/
inductive ResampleFilter
  | nearestNeighbor
  | linear
  | catmullRom
  | lanczos
deriving DecidableEq

/-- The algorithm dispatch of `ScaleImage` (processor.go lines 410-421):
`switch strings.ToLower(algorithm)` with cases `nearest`;
`bilinear, linear`; `bicubic, cubic`; `lanczos`; unknown names fall through
to the error default. -/
def resizeAlgorithm (algorithm : String) : Option ResampleFilter :=
  if lowerStr algorithm = "nearest" then some ResampleFilter.nearestNeighbor
  else if lowerStr algorithm = "bilinear" ∨ lowerStr algorithm = "linear" then
    some ResampleFilter.linear
  else if lowerStr algorithm = "bicubic" ∨ lowerStr algorithm = "cubic" then
    some ResampleFilter.catmullRom
  else if lowerStr algorithm = "lanczos" then some ResampleFilter.lanczos
  else none

/-- Target-dimension computation of `ScaleImage` (processor.go lines 383-404).
Go's `int(float32(...) * ...)` conversions are `ratTrunc` over exact rational
arithmetic; an unset parameter is the zero value, and if no parameter is set
both targets stay at their zero value. -/
def scaleTargetDims (ow oh : Nat) (factor : ℚ) (width height : Int) : Int × Int :=
  if factor ≠ 0 then
    (ratTrunc ((ow : ℚ) * factor), ratTrunc ((oh : ℚ) * factor))
  else if width ≠ 0 ∧ height ≠ 0 then (width, height)
  else if width ≠ 0 then
    (width, ratTrunc ((width : ℚ) * ((oh : ℚ) / (ow : ℚ))))
  else if height ≠ 0 then
    (ratTrunc ((height : ℚ) * ((ow : ℚ) / (oh : ℚ))), height)
  else (0, 0)

/-- Modelled from the spec: target dimensions for a uniform factor computed
with rounding, `target = round(original x f)` per axis, as section 4.3 of the
specification words it.  Used only to compare against the source-derived
`scaleTargetDims`. -/
def specRoundFactorDims (ow oh : Nat) (factor : ℚ) : Int × Int :=
  (round ((ow : ℚ) * factor), round ((oh : ℚ) * factor))

/-- The SVG rasterization scale clamp of `loadSVGWithScale` (processor.go
lines 281-287): two sequential comparisons. -/
def clampScale (s : ℚ) : ℚ :=
  let s1 := if s < 1 then 1 else s
  if s1 > 4 then 4 else s1

/-- Intrinsic viewbox size of a vector document, with the 512x512 fallback
when either dimension is zero (processor.go lines 276-279). -/
def intrinsicWH (vbW vbH : ℚ) : ℚ × ℚ :=
  if vbW = 0 ∨ vbH = 0 then ((512 : ℚ), (512 : ℚ)) else (vbW, vbH)

/-- `renderWidth` of `loadSVGWithScale` (processor.go line 289). -/
def svgWorkingW (vbW vbH s0 : ℚ) : Nat :=
  (ratTrunc ((intrinsicWH vbW vbH).1 * clampScale s0)).toNat

/-- `renderHeight` of `loadSVGWithScale` (processor.go line 290). -/
def svgWorkingH (vbW vbH s0 : ℚ) : Nat :=
  (ratTrunc ((intrinsicWH vbW vbH).2 * clampScale s0)).toNat

/-- `int(width)`: the width of the final intrinsic-size canvas
(processor.go line 314). -/
def svgOutW (vbW vbH : ℚ) : Nat := (ratTrunc (intrinsicWH vbW vbH).1).toNat

/-- `int(height)`: the height of the final intrinsic-size canvas
(processor.go line 314). -/
def svgOutH (vbW vbH : ℚ) : Nat := (ratTrunc (intrinsicWH vbW vbH).2).toNat

/-- The downsampling loop of `loadSVGWithScale` (processor.go lines 313-326):
a fresh transparent canvas of the given output size, each in-range cell
point-sampled from the working canvas at `(int(x*scale), int(y*scale))` when
that sample is in range, left at the transparent default otherwise. -/
def downsampleCanvas (working : Img) (outW outH : Nat) (scale : ℚ) : Img :=
  { w := outW
    h := outH
    pix := fun x y =>
      if x < outW ∧ y < outH then
        if ratTrunc ((x : ℚ) * scale) < (working.w : Int) ∧
            ratTrunc ((y : ℚ) * scale) < (working.h : Int) then
          working.pix (ratTrunc ((x : ℚ) * scale)).toNat (ratTrunc ((y : ℚ) * scale)).toNat
        else zeroPix
      else zeroPix }

/-- The pixel-level part of `loadSVGWithScale` (processor.go lines 281-329),
with the external `oksvg`/`rasterx` rendering abstracted as `draw`: given the
working-canvas dimensions, `draw` yields the canvas contents after
`icon.Draw` has painted onto the zero-initialized buffer.  After rendering,
if the clamped scale is not 1 the working canvas is point-sampled down to the
intrinsic size; otherwise the working canvas itself is returned. -/
def loadSVGRaster (draw : Nat → Nat → Nat → Nat → Pix) (vbW vbH : ℚ) (scale0 : ℚ) : Img :=
  if clampScale scale0 ≠ 1 then
    downsampleCanvas
      ⟨svgWorkingW vbW vbH scale0, svgWorkingH vbW vbH scale0,
        draw (svgWorkingW vbW vbH scale0) (svgWorkingH vbW vbH scale0)⟩
      (svgOutW vbW vbH) (svgOutH vbW vbH) (clampScale scale0)
  else
    ⟨svgWorkingW vbW vbH scale0, svgWorkingH vbW vbH scale0,
      draw (svgWorkingW vbW vbH scale0) (svgWorkingH vbW vbH scale0)⟩

/-- JPEG quality conversion of `saveImage` (processor.go lines 449-455):
truncate to int, replace values below 1 with the default 90, cap at 100. -/
def jpegQuality (q : ℚ) : Int :=
  let j := ratTrunc q
  let j1 := if j < 1 then 90 else j
  if j1 > 100 then 100 else j1

/-- Modelled from the spec: "integer quality 1-100 clamped" (section 6).
Used only to compare against the source-derived `jpegQuality`. -/
def specJpegClampQuality (q : ℚ) : Int := max 1 (min 100 (ratTrunc q))

/-- Errors of the scale pipeline relevant to the modelled control flow. -/
inductive PipelineErr
  | unsupportedAlgorithm (name : String)
  | unsupportedFormat (ext : String)
deriving DecidableEq

/-- Filesystem-mutating effects of the pipeline, in program order:
`os.MkdirAll` on the output directory, `os.Create` of the output file, and
the encoder writing the encoded bytes. -/
inductive FsEff
  | mkdirOutputDir
  | createOutputFile
  | writeEncoded
deriving DecidableEq

/-- `filepath.Ext` + `strings.ToLower` as used by `saveImage` (processor.go
line 443): the lowercased suffix starting at the final dot of the final
path element, empty when there is no dot. -/
def lowerExt (p : String) : String :=
  match p.data.foldl
      (fun acc c =>
        if c = '.' then some ['.']
        else if c = '/' then none
        else match acc with
          | none => none
          | some l => some (l ++ [c]))
      none with
  | none => ""
  | some l => lowerStr ⟨l⟩

/-- `saveImage` (processor.go lines 428-479): create the output directory and
the output file, then dispatch on the lowercased output extension; `.png`,
`.jpg`/`.jpeg` and `.webp` encode into the created file, any other extension
fails with the unsupported-format error (after the directory and file were
already created). -/
def saveImageModel (outPath : String) : Except PipelineErr Unit × List FsEff :=
  if lowerExt outPath = ".png" then
    (Except.ok (), [FsEff.mkdirOutputDir, FsEff.createOutputFile, FsEff.writeEncoded])
  else if lowerExt outPath = ".jpg" ∨ lowerExt outPath = ".jpeg" then
    (Except.ok (), [FsEff.mkdirOutputDir, FsEff.createOutputFile, FsEff.writeEncoded])
  else if lowerExt outPath = ".webp" then
    (Except.ok (), [FsEff.mkdirOutputDir, FsEff.createOutputFile, FsEff.writeEncoded])
  else
    (Except.error (PipelineErr.unsupportedFormat (lowerExt outPath)),
      [FsEff.mkdirOutputDir, FsEff.createOutputFile])

/-- The `ScaleImage` control flow after the input image is decoded
(processor.go lines 378-425): compute the target dimensions, dispatch on the
algorithm name — an unknown name returns the unsupported-algorithm error
before any filesystem-mutating step — and otherwise resample (delegated to
the `imaging` library) and save.  The effect trace lists filesystem
mutations; reading the input and printing progress lines mutate nothing. -/
def scaleImagePipeline (img : Img) (factor : ℚ) (width height : Int)
    (algorithm : String) (outPath : String) : Except PipelineErr (Int × Int) × List FsEff :=
  match resizeAlgorithm algorithm with
  | none => (Except.error (PipelineErr.unsupportedAlgorithm algorithm), [])
  | some _ =>
    match saveImageModel outPath with
    | (Except.ok _, effs) => (Except.ok (scaleTargetDims img.w img.h factor width height), effs)
    | (Except.error e, effs) => (Except.error e, effs)

lemma clampScale_eq (s : ℚ) :
    clampScale s = if (if s < 1 then 1 else s) > 4 then 4 else (if s < 1 then 1 else s) := rfl

lemma one_le_clampScale (s : ℚ) : 1 ≤ clampScale s := by
  rw [clampScale_eq]
  split_ifs <;> linarith

lemma clampScale_le_four (s : ℚ) : clampScale s ≤ 4 := by
  rw [clampScale_eq]
  split_ifs <;> linarith

lemma clampScale_of_mem {s : ℚ} (h1 : 1 ≤ s) (h4 : s ≤ 4) : clampScale s = s := by
  rw [clampScale_eq]
  split_ifs <;> linarith

lemma clampScale_idem (s : ℚ) : clampScale (clampScale s) = clampScale s :=
  clampScale_of_mem (one_le_clampScale s) (clampScale_le_four s)

lemma jpegQuality_eq (q : ℚ) :
    jpegQuality q =
      if (if ratTrunc q < 1 then 90 else ratTrunc q) > 100 then 100
      else if ratTrunc q < 1 then 90 else ratTrunc q := rfl

lemma downsampleCanvas_pix (working : Img) (outW outH : Nat) (scale : ℚ) (x y : Nat) :
    (downsampleCanvas working outW outH scale).pix x y =
      if x < outW ∧ y < outH then
        if ratTrunc ((x : ℚ) * scale) < (working.w : Int) ∧
            ratTrunc ((y : ℚ) * scale) < (working.h : Int) then
          working.pix (ratTrunc ((x : ℚ) * scale)).toNat (ratTrunc ((y : ℚ) * scale)).toNat
        else zeroPix
      else zeroPix := rfl

/-- C3 counterexample: for a 1x1 image and factor 3/2 the code truncates
`1 * 1.5` to 1, while the specified `round(original x f)` gives 2. -/
theorem scale_factor_round_counterexample :
    scaleTargetDims 1 1 (3 / 2) 0 0 = (1, 1) ∧
    specRoundFactorDims 1 1 (3 / 2) = (2, 2) ∧
    scaleTargetDims 1 1 (3 / 2) 0 0 ≠ specRoundFactorDims 1 1 (3 / 2) := by
  have h1 : scaleTargetDims 1 1 (3 / 2) 0 0 = (1, 1) := by
    rw [scaleTargetDims, if_pos (show (3 / 2 : ℚ) ≠ 0 by norm_num)]
    rw [ratTrunc_eq_floor (show (0 : ℚ) ≤ ((1 : Nat) : ℚ) * (3 / 2) by norm_num)]
    simp only [Prod.mk.injEq]
    constructor <;> norm_num
  have h2 : specRoundFactorDims 1 1 (3 / 2) = (2, 2) := by
    rw [specRoundFactorDims, round_eq]
    simp only [Prod.mk.injEq]
    constructor <;> norm_num
  exact ⟨h1, h2, by rw [h1, h2]; decide⟩

/-- C3 (amended): target dimensions follow the source's branch structure with
Go `int(...)` truncation toward zero in place of rounding: a nonzero uniform
factor gives `trunc(original x f)` per axis, explicit width+height are used
as-is without preserving aspect ratio, width-only and height-only derive the
other axis by `trunc` of the aspect-ratio product; scaling 100x100 by factor
0.5 yields 50x50 and by factor 2.0 yields 200x200. -/
theorem scale_target_dims_truncate :
    (∀ (ow oh : Nat) (f : ℚ) (w h : Int), f ≠ 0 →
      scaleTargetDims ow oh f w h = (ratTrunc ((ow : ℚ) * f), ratTrunc ((oh : ℚ) * f))) ∧
    (∀ (ow oh : Nat) (w h : Int), w ≠ 0 → h ≠ 0 →
      scaleTargetDims ow oh 0 w h = (w, h)) ∧
    (∀ (ow oh : Nat) (w : Int), w ≠ 0 →
      scaleTargetDims ow oh 0 w 0 = (w, ratTrunc ((w : ℚ) * ((oh : ℚ) / (ow : ℚ))))) ∧
    (∀ (ow oh : Nat) (h : Int), h ≠ 0 →
      scaleTargetDims ow oh 0 0 h = (ratTrunc ((h : ℚ) * ((ow : ℚ) / (oh : ℚ))), h)) ∧
    scaleTargetDims 100 100 (1 / 2) 0 0 = (50, 50) ∧
    scaleTargetDims 100 100 2 0 0 = (200, 200) := by
  refine ⟨?_, ?_, ?_, ?_, ?_, ?_⟩
  · intro ow oh f w h hf
    rw [scaleTargetDims, if_pos hf]
  · intro ow oh w h hw hh
    rw [scaleTargetDims, if_neg (fun h0 => h0 rfl), if_pos ⟨hw, hh⟩]
  · intro ow oh w hw
    rw [scaleTargetDims, if_neg (fun h0 => h0 rfl), if_neg (fun hc => hc.2 rfl), if_pos hw]
  · intro ow oh h hh
    rw [scaleTargetDims, if_neg (fun h0 => h0 rfl), if_neg (fun hc => hc.1 rfl),
      if_neg (fun hc => hc rfl), if_pos hh]
  · rw [scaleTargetDims, if_pos (show (1 / 2 : ℚ) ≠ 0 by norm_num)]
    rw [ratTrunc_eq_floor (show (0 : ℚ) ≤ ((100 : Nat) : ℚ) * (1 / 2) by norm_num)]
    simp only [Prod.mk.injEq]
    constructor <;> norm_num
  · rw [scaleTargetDims, if_pos (show (2 : ℚ) ≠ 0 by norm_num)]
    rw [ratTrunc_eq_floor (show (0 : ℚ) ≤ ((100 : Nat) : ℚ) * 2 by norm_num)]
    simp only [Prod.mk.injEq]
    constructor <;> norm_num

theorem scale_target_dims_truncate_witness :
    scaleTargetDims 3 3 2 0 0 = (ratTrunc (((3 : Nat) : ℚ) * 2), ratTrunc (((3 : Nat) : ℚ) * 2)) :=
  scale_target_dims_truncate.1 3 3 2 0 0 (by decide)

/-- C4: an unrecognized resampling-algorithm name makes the scale operation
fail with the unsupported-algorithm error instead of silently defaulting,
with an empty trace of filesystem-mutating effects. -/
theorem scale_unknown_algorithm (img : Img) (factor : ℚ) (width height : Int)
    (alg outPath : String)
    (hna : lowerStr alg ∉
      (["nearest", "bilinear", "linear", "bicubic", "cubic", "lanczos"] : List String)) :
    scaleImagePipeline img factor width height alg outPath =
      (Except.error (PipelineErr.unsupportedAlgorithm alg), []) := by
  have hnone : resizeAlgorithm alg = none := by
    simp only [List.mem_cons] at hna
    push_neg at hna
    obtain ⟨h1, h2, h3, h4, h5, h6, _⟩ := hna
    rw [resizeAlgorithm, if_neg h1, if_neg (not_or.mpr ⟨h2, h3⟩),
      if_neg (not_or.mpr ⟨h4, h5⟩), if_neg h6]
  unfold scaleImagePipeline
  rw [hnone]

theorem scale_unknown_algorithm_witness :
    scaleImagePipeline fullImg 2 0 0 "gaussian" "out.png" =
      (Except.error (PipelineErr.unsupportedAlgorithm "gaussian"), []) :=
  scale_unknown_algorithm fullImg 2 0 0 "gaussian" "out.png" (by decide)

/-- C8: the rasterization scale is clamped to [1,4] before rendering — it is
at least 1, at most 4, in-range values pass unchanged, 10 clamps to 4, 0
clamps to 1, and rasterizing with a raw scale equals rasterizing with its
clamped value. -/
theorem svg_scale_clamp :
    (∀ s : ℚ, 1 ≤ clampScale s ∧ clampScale s ≤ 4 ∧ (1 ≤ s → s ≤ 4 → clampScale s = s)) ∧
    clampScale 10 = 4 ∧ clampScale 0 = 1 ∧
    (∀ (draw : Nat → Nat → Nat → Nat → Pix) (vbW vbH s : ℚ),
      loadSVGRaster draw vbW vbH s = loadSVGRaster draw vbW vbH (clampScale s)) := by
  refine ⟨fun s => ⟨one_le_clampScale s, clampScale_le_four s, fun h1 h4 => clampScale_of_mem h1 h4⟩,
    by decide, by decide, fun draw vbW vbH s => ?_⟩
  simp only [loadSVGRaster, svgWorkingW, svgWorkingH, clampScale_idem]

theorem svg_scale_clamp_witness : clampScale 2 = 2 :=
  (svg_scale_clamp.1 2).2.2 (by decide) (by decide)

/-- C6: with a clamped scale different from 1, the rasterizer returns a
buffer at intrinsic resolution in which every pixel is point-sampled from the
working canvas at `(floor(x*scale), floor(y*scale))` when that sample is in
range, and left at the transparent default otherwise. -/
theorem svg_downsample_point_sample (draw : Nat → Nat → Nat → Nat → Pix)
    (vbW vbH s0 : ℚ) (hs : clampScale s0 ≠ 1) :
    (loadSVGRaster draw vbW vbH s0).w = svgOutW vbW vbH ∧
    (loadSVGRaster draw vbW vbH s0).h = svgOutH vbW vbH ∧
    ∀ x y, x < svgOutW vbW vbH → y < svgOutH vbW vbH →
      (loadSVGRaster draw vbW vbH s0).pix x y =
        if ⌊(x : ℚ) * clampScale s0⌋ < (svgWorkingW vbW vbH s0 : Int) ∧
            ⌊(y : ℚ) * clampScale s0⌋ < (svgWorkingH vbW vbH s0 : Int) then
          draw (svgWorkingW vbW vbH s0) (svgWorkingH vbW vbH s0)
            ⌊(x : ℚ) * clampScale s0⌋.toNat ⌊(y : ℚ) * clampScale s0⌋.toNat
        else zeroPix := by
  have htr : ∀ x : Nat, ratTrunc ((x : ℚ) * clampScale s0) = ⌊(x : ℚ) * clampScale s0⌋ :=
    fun x => ratTrunc_eq_floor
      (mul_nonneg (Nat.cast_nonneg x) (le_trans zero_le_one (one_le_clampScale s0)))
  rw [loadSVGRaster, if_pos hs]
  refine ⟨rfl, rfl, fun x y hx hy => ?_⟩
  rw [downsampleCanvas_pix, if_pos ⟨hx, hy⟩, htr x, htr y]

/-- A concrete abstract rasterizer output for the C6 witness. -/
def drawGrad : Nat → Nat → Nat → Nat → Pix := fun _ _ x y => ⟨x, y, 0, 65535⟩

theorem svg_downsample_point_sample_witness :
    (loadSVGRaster drawGrad 4 4 2).w = svgOutW 4 4 ∧
    (loadSVGRaster drawGrad 4 4 2).h = svgOutH 4 4 ∧
    ∀ x y, x < svgOutW 4 4 → y < svgOutH 4 4 →
      (loadSVGRaster drawGrad 4 4 2).pix x y =
        if ⌊(x : ℚ) * clampScale 2⌋ < (svgWorkingW 4 4 2 : Int) ∧
            ⌊(y : ℚ) * clampScale 2⌋ < (svgWorkingH 4 4 2 : Int) then
          drawGrad (svgWorkingW 4 4 2) (svgWorkingH 4 4 2)
            ⌊(x : ℚ) * clampScale 2⌋.toNat ⌊(y : ℚ) * clampScale 2⌋.toNat
        else zeroPix :=
  svg_downsample_point_sample drawGrad 4 4 2 (by decide)

/-- C9 counterexample: at quality 0 the code encodes with the default 90,
not with the value 1 that clamping to the range 1-100 would give. -/
theorem jpeg_quality_default_counterexample :
    jpegQuality 0 = 90 ∧ specJpegClampQuality 0 = 1 ∧
      jpegQuality 0 ≠ specJpegClampQuality 0 := by
  have h0 : ratTrunc 0 = 0 := by
    rw [ratTrunc_eq_floor le_rfl]
    exact Int.floor_zero
  have h1 : jpegQuality 0 = 90 := by
    rw [jpegQuality_eq, h0]
    norm_num
  have h2 : specJpegClampQuality 0 = 1 := by
    rw [specJpegClampQuality, h0]
    decide
  exact ⟨h1, h2, by rw [h1, h2]; decide⟩

/-- C9 (amended): the real-valued quality is truncated to an integer; results
below 1 are replaced by the default 90 (not clamped to 1), results above 100
are capped at 100, and the encoder therefore always receives an integer in
[1,100]. -/
theorem jpeg_quality_truncate_default :
    ∀ q : ℚ,
      (ratTrunc q < 1 → jpegQuality q = 90) ∧
      (1 ≤ ratTrunc q → ratTrunc q ≤ 100 → jpegQuality q = ratTrunc q) ∧
      (100 < ratTrunc q → jpegQuality q = 100) ∧
      1 ≤ jpegQuality q ∧ jpegQuality q ≤ 100 := by
  intro q
  rw [jpegQuality_eq]
  refine ⟨fun h => ?_, fun h1 h2 => ?_, fun h => ?_, ?_, ?_⟩ <;> split_ifs <;> omega

theorem jpeg_quality_truncate_default_witness : jpegQuality 0 = 90 :=
  (jpeg_quality_truncate_default 0).1
    (by rw [ratTrunc_eq_floor le_rfl, Int.floor_zero]; decide)

lemma saveImageModel_error_is_format {outPath : String} {e : PipelineErr} {effs : List FsEff}
    (h : saveImageModel outPath = (Except.error e, effs)) :
    e = PipelineErr.unsupportedFormat (lowerExt outPath) := by
  unfold saveImageModel at h
  split_ifs at h <;> simp_all

/-- C10: the algorithm matching lowercases the name before dispatch and also
accepts the aliases `linear` (bilinear filter) and `cubic` (bicubic filter);
any name whose lowercase form is one of the six recognized strings never
produces the unsupported-algorithm failure. -/
theorem scale_algorithm_aliases :
    (∀ s : String,
      lowerStr s ∈ (["nearest", "bilinear", "linear", "bicubic", "cubic", "lanczos"] : List String) →
      (resizeAlgorithm s).isSome = true) ∧
    (∀ s : String,
      lowerStr s ∈ (["nearest", "bilinear", "linear", "bicubic", "cubic", "lanczos"] : List String) →
      ∀ (img : Img) (factor : ℚ) (width height : Int) (outPath : String),
        (scaleImagePipeline img factor width height s outPath).1 ≠
          Except.error (PipelineErr.unsupportedAlgorithm s)) ∧
    resizeAlgorithm "linear" = some ResampleFilter.linear ∧
    resizeAlgorithm "cubic" = some ResampleFilter.catmullRom ∧
    resizeAlgorithm "NEAREST" = some ResampleFilter.nearestNeighbor ∧
    resizeAlgorithm "BiLinear" = some ResampleFilter.linear ∧
    resizeAlgorithm "Lanczos" = some ResampleFilter.lanczos := by
  have hsome : ∀ s : String,
      lowerStr s ∈ (["nearest", "bilinear", "linear", "bicubic", "cubic", "lanczos"] : List String) →
      (resizeAlgorithm s).isSome = true := by
    intro s hs
    simp only [List.mem_cons] at hs
    rcases hs with h | h | h | h | h | h | h
    · unfold resizeAlgorithm
      rw [h]
      decide
    · unfold resizeAlgorithm
      rw [h]
      decide
    · unfold resizeAlgorithm
      rw [h]
      decide
    · unfold resizeAlgorithm
      rw [h]
      decide
    · unfold resizeAlgorithm
      rw [h]
      decide
    · unfold resizeAlgorithm
      rw [h]
      decide
    · exact absurd h (List.not_mem_nil _)
  refine ⟨hsome, ?_, by decide, by decide, by decide, by decide, by decide⟩
  intro s hs img factor width height outPath
  have h := hsome s hs
  cases hres : resizeAlgorithm s with
  | none => rw [hres] at h; cases h
  | some f =>
    unfold scaleImagePipeline
    rw [hres]
    cases hsave : saveImageModel outPath with
    | mk res effs =>
      cases res with
      | ok u => simp
      | error e =>
        have he := saveImageModel_error_is_format hsave
        simp [he]

theorem scale_algorithm_aliases_witness :
    (scaleImagePipeline fullImg 2 0 0 "LANCZOS" "out.png").1 ≠
      Except.error (PipelineErr.unsupportedAlgorithm "LANCZOS") :=
  scale_algorithm_aliases.2.1 "LANCZOS" (by decide) fullImg 2 0 0 "out.png"

end CliTools
